import Mathlib

/-!
# Verification of the taxi driver app's core logic

Shallow embedding of the trip/fare state machine, cumulative-addition
handlers and voice-announcement gate of
`src/components/navigation/VoiceGuidance.tsx` (the `NavigationScreen` and
`VoiceGuidance` components), the polyline decoder of
`src/services/NavigationService.ts`, and the route-progress tracker of
`src/docs/MAP_NAVIGATION_SPECIFICATION.md`.

JavaScript numbers are modelled as exact rationals (`ℚ`) where the code
performs plain arithmetic, and as integers (`ℤ`) with explicit 32-bit
normalisation where the code uses JavaScript bitwise operators.
-/

namespace TaxiApp

/-- Trip lifecycle status, from `TripState` in `VoiceGuidance.tsx`:
`status: 'idle' | 'active' | 'resting' | 'completed'`. -/
inductive TripStatus where
  | idle
  | active
  | resting
  | completed
deriving DecidableEq, Repr

/-- `TripState` from `VoiceGuidance.tsx`: `{status, startTime, restStartTime,
totalRestTime}`.  Timestamps are `number | null`, modelled as `Option ℤ`
(milliseconds). -/
structure TripState where
  status : TripStatus
  startTime : Option ℤ
  restStartTime : Option ℤ
  totalRestTime : ℤ
deriving DecidableEq, Repr

/-- `const BASE_FARE = 2000` (MMK). -/
def BASE_FARE : ℚ := 2000

/-- `const FARE_RATE = 600` (MMK per km). -/
def FARE_RATE : ℚ := 600

/-- `const INITIAL_DISTANCE = 0.1` (km). -/
def INITIAL_DISTANCE : ℚ := 1/10

/-- The pieces of `NavigationScreen` React state that the fare computation
and the trip state machine read and write: `tripState`, `distance`,
`demandValue`, `cumulativeTotal`, `recentAdditions`. -/
structure NavState where
  trip : TripState
  distance : ℚ
  demandValue : ℚ
  cumulativeTotal : ℚ
  recentAdditions : List ℚ
deriving DecidableEq, Repr

/-- The fare-recomputation effect of `NavigationScreen` (it runs whenever
`distance`, `demandValue` or `cumulativeTotal` changes):
`const distanceFare = distance * FARE_RATE;`
`const calculatedTotal = BASE_FARE + distanceFare + demandValue + cumulativeTotal;`
`setTotalFare(calculatedTotal); setFare(calculatedTotal);`. -/
def totalFare (s : NavState) : ℚ :=
  BASE_FARE + s.distance * FARE_RATE + s.demandValue + s.cumulativeTotal

/-- JavaScript `prev.slice(-4)`: the last four elements of the list (the
whole list when it is shorter). -/
def sliceLast4 (l : List ℚ) : List ℚ := l.drop (l.length - 4)

/-- The user/timer events handled by `NavigationScreen`.  Timestamps and the
simulated distance increment are parameters (the code reads `Date.now()` and
`Math.random()`). -/
inductive Event where
  | startTrip (now : ℤ)
  | toggleRest (now : ℤ)
  | dropOffConfirm
  | cancelOrder
  | resetTrip
  | demandSelect (v : ℚ)
  | priceAdd (v : ℚ)
  | undoLast
  | clearCumulative
  | distanceTick (d : ℚ)
deriving DecidableEq, Repr

/-- One event-handler application, embedding the handlers of
`NavigationScreen`:

* `startTrip`: sets `{status:'active', startTime:Date.now(), restStartTime:null, totalRestTime:0}` (unconditionally).
* `toggleRest`: `active → resting` recording `restStartTime`; `resting → active` adding `Date.now() - (restStartTime || 0)` to `totalRestTime` and clearing `restStartTime`; otherwise no effect.
* `handleDropoffConfirm`: sets `{status:'completed', startTime:null, restStartTime:null, totalRestTime:0}` (unconditionally) and clears the trip timer.
* `handleCancelOrder` confirm branch / `resetTrip`: reset the trip state to idle with all timestamps null, `distance := INITIAL_DISTANCE`, `demandValue := 0` (neither touches `cumulativeTotal` or `recentAdditions`).
* `handleDemandSelect`: `setDemandValue(selectedDemand)` (replaces, unconditionally).
* `handlePriceAdd`: `setCumulativeTotal(prev => prev + value)`; `setRecentAdditions(prev => [...prev.slice(-4), value])`.
* `handleUndoLast`: when `recentAdditions` is non-empty, `setCumulativeTotal(prev => Math.max(0, prev - lastAddition))` and pops the last entry; otherwise no effect.
* `handleClearCumulative` confirm branch: `setCumulativeTotal(0); setRecentAdditions([])`.
* `distanceTick`: the `startTripSimulation` interval body, which increments `distance` only under `if (tripState.status === 'active')`.
-/
def step (s : NavState) : Event → NavState
  | .startTrip now =>
      { s with trip := ⟨.active, some now, none, 0⟩ }
  | .toggleRest now =>
      match s.trip.status with
      | .active =>
          { s with trip := { s.trip with status := .resting, restStartTime := some now } }
      | .resting =>
          { s with trip :=
              { s.trip with
                  status := .active
                  restStartTime := none
                  totalRestTime := s.trip.totalRestTime + (now - (s.trip.restStartTime.getD 0)) } }
      | _ => s
  | .dropOffConfirm =>
      { s with trip := ⟨.completed, none, none, 0⟩ }
  | .cancelOrder =>
      { s with trip := ⟨.idle, none, none, 0⟩, distance := INITIAL_DISTANCE, demandValue := 0 }
  | .resetTrip =>
      { s with trip := ⟨.idle, none, none, 0⟩, distance := INITIAL_DISTANCE, demandValue := 0 }
  | .demandSelect v =>
      { s with demandValue := v }
  | .priceAdd v =>
      { s with
          cumulativeTotal := s.cumulativeTotal + v
          recentAdditions := sliceLast4 s.recentAdditions ++ [v] }
  | .undoLast =>
      if h : s.recentAdditions = [] then s
      else
        { s with
            cumulativeTotal := max 0 (s.cumulativeTotal - s.recentAdditions.getLast h)
            recentAdditions := s.recentAdditions.dropLast }
  | .clearCumulative =>
      { s with cumulativeTotal := 0, recentAdditions := [] }
  | .distanceTick d =>
      if s.trip.status = .active then { s with distance := s.distance + d } else s

/-- Initial React state of `NavigationScreen`: `status:'idle'`, all
timestamps `null`, `distance = INITIAL_DISTANCE`, `demandValue = 0`,
`cumulativeTotal = 0`, `recentAdditions = []`. -/
def initState : NavState :=
  ⟨⟨.idle, none, none, 0⟩, INITIAL_DISTANCE, 0, 0, []⟩

/-- Apply a sequence of events in arrival order. -/
def applyEvents (s : NavState) (evs : List Event) : NavState :=
  evs.foldl step s

/-- C1: the total fare always equals
`baseFare + distanceKm × rate + demandSurcharge + cumulativeAdditions` with
`baseFare = 2000` and `rate = 600`; the initial total at 0.1 km is 2060,
it is 3060 after selecting the `+1000` demand tier and 3560 after a 500
cumulative increment. -/
theorem fare_formula_and_example :
    (∀ s : NavState,
        totalFare s = 2000 + s.distance * 600 + s.demandValue + s.cumulativeTotal) ∧
    totalFare initState = 2060 ∧
    totalFare (step initState (.demandSelect 1000)) = 3060 ∧
    totalFare (step (step initState (.demandSelect 1000)) (.priceAdd 500)) = 3560 := by
  refine ⟨fun s => rfl, ?_, ?_, ?_⟩ <;>
    norm_num [totalFare, initState, step, sliceLast4, BASE_FARE, FARE_RATE, INITIAL_DISTANCE]

/-- C2 counterexample: the fare is NOT frozen after completion.  Start a
trip, confirm drop-off (status `completed`, total 2060), then select the
`+1000` demand tier: the fare-recomputation effect has no status guard, so
the total changes to 3060. -/
theorem fare_not_frozen_after_completion_cex :
    (applyEvents initState [.startTrip 0, .dropOffConfirm]).trip.status = .completed ∧
    totalFare (applyEvents initState [.startTrip 0, .dropOffConfirm]) = 2060 ∧
    totalFare (step (applyEvents initState [.startTrip 0, .dropOffConfirm])
        (.demandSelect 1000)) ≠
      totalFare (applyEvents initState [.startTrip 0, .dropOffConfirm]) := by
  refine ⟨rfl, ?_, ?_⟩ <;>
    norm_num [totalFare, applyEvents, step, initState, BASE_FARE, FARE_RATE, INITIAL_DISTANCE]

/-- C2 amended: once the status is `completed`, distance updates no longer
change the fare total (the simulation tick increments distance only while
`active`); demand-tier selections and cumulative additions, however, still
recompute the total, so the fare is not frozen. -/
theorem fare_unchanged_by_distance_when_completed (s : NavState)
    (h : s.trip.status = .completed) (ds : List ℚ) :
    totalFare (applyEvents s (ds.map .distanceTick)) = totalFare s := by
  induction ds generalizing s with
  | nil => rfl
  | cons d ds ih =>
      have hstep : step s (.distanceTick d) = s := by simp [step, h]
      show totalFare (applyEvents (step s (.distanceTick d)) (ds.map .distanceTick)) = totalFare s
      rw [hstep]
      exact ih s h

/-- Witness for `fare_unchanged_by_distance_when_completed` at a concrete
completed state and tick sequence. -/
theorem fare_unchanged_by_distance_when_completed_witness :
    totalFare (applyEvents (step initState .dropOffConfirm) ([1, 2].map .distanceTick)) =
      totalFare (step initState .dropOffConfirm) :=
  fare_unchanged_by_distance_when_completed (step initState .dropOffConfirm) rfl [1, 2]

/-- C4 counterexample: the drop-off confirmation applied while `idle` is
not a no-op — `handleDropoffConfirm` has no status guard and sets the
status to `completed`. -/
theorem dropoff_in_idle_not_noop_cex :
    (step initState .dropOffConfirm).trip.status = .completed ∧
    step initState .dropOffConfirm ≠ initState := by
  refine ⟨rfl, fun h => ?_⟩
  have h' := congrArg (fun s => s.trip.status) h
  simp [step, initState] at h'

/-- C4 amended: `toggleRest` while `idle` (or `completed`) leaves the whole
state unchanged, but the drop-off confirmation handler is unguarded: applied
in any state it sets the status to `completed` (clearing the timestamps); in
the UI it is only reachable while `active` or `resting`. -/
theorem toggleRest_noop_dropoff_unguarded (s : NavState) (t : ℤ)
    (h : s.trip.status = .idle ∨ s.trip.status = .completed) :
    step s (.toggleRest t) = s ∧ (step s .dropOffConfirm).trip.status = .completed := by
  refine ⟨?_, rfl⟩
  rcases h with h | h <;> simp [step, h]

/-- Witness for `toggleRest_noop_dropoff_unguarded` at the initial (idle)
state. -/
theorem toggleRest_noop_dropoff_unguarded_witness :
    step initState (.toggleRest 0) = initState ∧
    (step initState .dropOffConfirm).trip.status = .completed :=
  toggleRest_noop_dropoff_unguarded initState 0 (Or.inl rfl)

/-- C8 counterexample: after starting a trip and confirming drop-off, the
status is `completed` (having started) but `startTime` is `null` —
`handleDropoffConfirm` clears it, contradicting "startTimestamp is set if
status is completed-after-having-started". -/
theorem startTime_cleared_on_completion_cex :
    (applyEvents initState [.startTrip 5, .dropOffConfirm]).trip.status = .completed ∧
    (applyEvents initState [.startTrip 5, .dropOffConfirm]).trip.startTime = none :=
  ⟨rfl, rfl⟩

/-- C8 amended invariant: `restStartTime` is set iff status = `resting`, and
`startTime` is set iff status ∈ {`active`, `resting`} (completion, cancel and
reset all clear `startTime`, so completed states never retain it). -/
def TimestampInv (s : NavState) : Prop :=
  (s.trip.restStartTime ≠ none ↔ s.trip.status = .resting) ∧
  (s.trip.startTime ≠ none ↔ (s.trip.status = .active ∨ s.trip.status = .resting))

/-- The invariant only reads the `trip` component. -/
theorem TimestampInv_of_trip_eq {s s' : NavState} (h : s'.trip = s.trip)
    (hs : TimestampInv s) : TimestampInv s' := by
  unfold TimestampInv at *
  rw [h]
  exact hs

/-- Every event handler preserves the timestamp invariant. -/
theorem step_preserves_TimestampInv (s : NavState) (e : Event)
    (h : TimestampInv s) : TimestampInv (step s e) := by
  obtain ⟨h1, h2⟩ := h
  cases e with
  | startTrip now => exact ⟨by simp [step], by simp [step]⟩
  | toggleRest now =>
      rcases hst : s.trip.status with _ | _ | _ | _
      · exact TimestampInv_of_trip_eq (by simp [step, hst]) ⟨h1, h2⟩
      · have hstart : s.trip.startTime ≠ none := h2.mpr (Or.inl hst)
        refine ⟨?_, ?_⟩ <;> simp [step, hst, hstart]
      · have hstart : s.trip.startTime ≠ none := h2.mpr (Or.inr hst)
        refine ⟨?_, ?_⟩ <;> simp [step, hst, hstart]
      · exact TimestampInv_of_trip_eq (by simp [step, hst]) ⟨h1, h2⟩
  | dropOffConfirm => exact ⟨by simp [step], by simp [step]⟩
  | cancelOrder => exact ⟨by simp [step], by simp [step]⟩
  | resetTrip => exact ⟨by simp [step], by simp [step]⟩
  | demandSelect v => exact ⟨h1, h2⟩
  | priceAdd v => exact ⟨h1, h2⟩
  | undoLast =>
      refine TimestampInv_of_trip_eq ?_ ⟨h1, h2⟩
      by_cases hl : s.recentAdditions = [] <;> simp [step, hl]
  | clearCumulative => exact ⟨h1, h2⟩
  | distanceTick d =>
      refine TimestampInv_of_trip_eq ?_ ⟨h1, h2⟩
      by_cases ha : s.trip.status = .active <;> simp [step, ha]

/-- C8 amended: in every state reachable from the initial state,
`restStartTime` is set iff the status is `resting`, and `startTime` is set
iff the status is `active` or `resting`. -/
theorem timestamps_track_status (evs : List Event) :
    TimestampInv (applyEvents initState evs) := by
  suffices h : ∀ (l : List Event) (s : NavState), TimestampInv s → TimestampInv (l.foldl step s) by
    refine h evs initState ⟨?_, ?_⟩ <;> simp [initState]
  intro l
  induction l with
  | nil => exact fun s hs => hs
  | cons e l ih => exact fun s hs => ih _ (step_preserves_TimestampInv s e hs)

/-- C9: cumulative additions are additive; the concrete chain add 500,
add 1000, undo yields total 500 (history `[500]`), and clearing yields
total 0 with empty history; undo after an addition restores the previous
total (LIFO). -/
theorem cumulative_add_undo_clear :
    (∀ (s : NavState) (v : ℚ),
        (step s (.priceAdd v)).cumulativeTotal = s.cumulativeTotal + v) ∧
    (applyEvents initState [.priceAdd 500, .priceAdd 1000, .undoLast]).cumulativeTotal = 500 ∧
    (applyEvents initState [.priceAdd 500, .priceAdd 1000, .undoLast]).recentAdditions = [500] ∧
    (applyEvents initState
        [.priceAdd 500, .priceAdd 1000, .undoLast, .clearCumulative]).cumulativeTotal = 0 ∧
    (applyEvents initState
        [.priceAdd 500, .priceAdd 1000, .undoLast, .clearCumulative]).recentAdditions = [] ∧
    (∀ (s : NavState) (v : ℚ), 0 ≤ s.cumulativeTotal →
        (step (step s (.priceAdd v)) .undoLast).cumulativeTotal = s.cumulativeTotal) := by
  refine ⟨fun s v => rfl, ?_, ?_, ?_, ?_, ?_⟩
  · norm_num [applyEvents, step, initState, sliceLast4, List.cons_ne_nil]
  · norm_num [applyEvents, step, initState, sliceLast4, List.cons_ne_nil]
  · norm_num [applyEvents, step, initState, sliceLast4, List.cons_ne_nil]
  · norm_num [applyEvents, step, initState, sliceLast4, List.cons_ne_nil]
  · intro s v h
    have hne : (step s (.priceAdd v)).recentAdditions ≠ [] := by simp [step]
    have hlast : (step s (.priceAdd v)).recentAdditions.getLast hne = v := by
      simp [step, List.getLast_append_singleton]
    have hun : (step (step s (.priceAdd v)) .undoLast).cumulativeTotal =
        max 0 ((step s (.priceAdd v)).cumulativeTotal -
          (step s (.priceAdd v)).recentAdditions.getLast hne) := by
      simp [step, dif_neg hne]
    rw [hun, hlast]
    show max 0 (s.cumulativeTotal + v - v) = s.cumulativeTotal
    rw [add_sub_cancel_right]
    exact max_eq_right h

/-- Witness for `cumulative_add_undo_clear`: the LIFO clause at the initial
state with a 700 MMK addition. -/
theorem cumulative_add_undo_clear_witness :
    0 ≤ initState.cumulativeTotal ∧
    (step (step initState (.priceAdd 700)) .undoLast).cumulativeTotal =
      initState.cumulativeTotal :=
  ⟨le_refl 0, cumulative_add_undo_clear.2.2.2.2.2 initState 700 (le_refl 0)⟩

/-- C10: the undo history keeps at most the 5 most recent additions
(`prev.slice(-4)` plus the new value), and undo never drives the cumulative
total below zero (`Math.max(0, prev - lastAddition)`). -/
theorem undo_history_cap_and_clamp :
    (∀ (s : NavState) (v : ℚ), (step s (.priceAdd v)).recentAdditions.length ≤ 5) ∧
    (∀ s : NavState, 0 ≤ s.cumulativeTotal → 0 ≤ (step s .undoLast).cumulativeTotal) := by
  constructor
  · intro s v
    show (sliceLast4 s.recentAdditions ++ [v]).length ≤ 5
    simp only [sliceLast4, List.length_append, List.length_drop, List.length_singleton]
    omega
  · intro s h
    by_cases hl : s.recentAdditions = []
    · rw [step, dif_pos hl]; exact h
    · rw [step, dif_neg hl]; exact le_max_left 0 _

/-- Witness for `undo_history_cap_and_clamp` at the initial state. -/
theorem undo_history_cap_and_clamp_witness :
    (step initState (.priceAdd 500)).recentAdditions.length ≤ 5 ∧
    0 ≤ (step initState .undoLast).cumulativeTotal :=
  ⟨undo_history_cap_and_clamp.1 initState 500,
   undo_history_cap_and_clamp.2 initState (le_refl 0)⟩

/-! ## Voice-announcement gate (`VoiceGuidance` component) -/

/-- The inputs read by the instruction-announcement effect of the
`VoiceGuidance` component: `isInitialized` (modelled as `isInit`),
`isNavigating`, `isMuted`, `currentInstruction` (only its `text` matters,
`none` models a null instruction) and `distanceToNext`. -/
structure GateInput where
  isInit : Bool
  isNavigating : Bool
  isMuted : Bool
  currentInstruction : Option String
  distanceToNext : ℚ
deriving DecidableEq, Repr

/-- The announcement decision of the effect in `VoiceGuidance`:
`if (!isInitialized || !isNavigating || isMuted || !currentInstruction) return;`
then
`const shouldSpeak = distanceToNext <= 100 || (distanceToNext <= 500 && currentInstruction.text !== lastSpokenInstruction);`. -/
def shouldSpeakGate (lastSpoken : Option String) (inp : GateInput) : Bool :=
  if !inp.isInit || !inp.isNavigating || inp.isMuted || inp.currentInstruction.isNone then
    false
  else
    match inp.currentInstruction with
    | none => false
    | some text =>
        decide (inp.distanceToNext ≤ 100) ||
          (decide (inp.distanceToNext ≤ 500) && decide (some text ≠ lastSpoken))

/-- One run of the effect: when it speaks, `speakInstruction` records
`setLastSpokenInstruction(instruction.text)`; otherwise the recorded text is
unchanged.  Returns (spoke?, new `lastSpokenInstruction`). -/
def gateStep (lastSpoken : Option String) (inp : GateInput) : Bool × Option String :=
  if shouldSpeakGate lastSpoken inp then (true, inp.currentInstruction) else (false, lastSpoken)

/-- Run the gate over a sequence of inputs (the effect fires once per
dependency change), collecting the speak decisions. -/
def runGate (lastSpoken : Option String) : List GateInput → List Bool
  | [] => []
  | inp :: rest => (gateStep lastSpoken inp).1 :: runGate (gateStep lastSpoken inp).2 rest

/-- An un-muted, initialized, navigating input with the given instruction
text and distance. -/
def liveInput (text : String) (d : ℚ) : GateInput := ⟨true, true, false, some text, d⟩

/-- C3 counterexample: instruction A at 80 m announces, and the SAME
instruction A at 60 m announces AGAIN — the `distanceToNext <= 100` disjunct
ignores `lastSpokenInstruction`, so the claim's "does not re-announce at
60 m" (expected decisions `[true, false]`) is false. -/
theorem same_instruction_reannounced_inside_100m_cex :
    runGate none [liveInput "Turn left" 80, liveInput "Turn left" 60] = [true, true] ∧
    runGate none [liveInput "Turn left" 80, liveInput "Turn left" 60] ≠ [true, false] := by
  constructor
  · norm_num [runGate, gateStep, shouldSpeakGate, liveInput]
  · norm_num [runGate, gateStep, shouldSpeakGate, liveInput]

/-- C3 amended: when initialized, navigating and not muted, the gate speaks
exactly per `d ≤ 100 ∨ (d ≤ 500 ∧ text ≠ lastAnnounced)`; it never speaks
while muted; after speaking, the instruction text is recorded.  Because the
`d ≤ 100` disjunct ignores the recorded text, instruction A at 80 m
announces, the same A at 60 m RE-announces, and B at 450 m announces
(`[true, true, true]`); de-duplication applies only in the 100–500 m band,
where the same A at 450 m is not re-announced. -/
theorem gate_rule_and_dedup_band :
    (∀ (lastSpoken : Option String) (text : String) (d : ℚ),
        shouldSpeakGate lastSpoken ⟨true, true, false, some text, d⟩ =
          (decide (d ≤ 100) || (decide (d ≤ 500) && decide (some text ≠ lastSpoken)))) ∧
    (∀ (lastSpoken : Option String) (text : String) (d : ℚ),
        shouldSpeakGate lastSpoken ⟨true, true, true, some text, d⟩ = false) ∧
    runGate none [liveInput "A" 80, liveInput "A" 60, liveInput "B" 450] =
      [true, true, true] ∧
    shouldSpeakGate (some "A") (liveInput "A" 450) = false ∧
    (gateStep none (liveInput "A" 80)).2 = some "A" := by
  refine ⟨fun lastSpoken text d => rfl, fun lastSpoken text d => rfl, ?_, ?_, ?_⟩
  · norm_num [runGate, gateStep, shouldSpeakGate, liveInput]
    decide
  · norm_num [shouldSpeakGate, liveInput]
  · norm_num [gateStep, shouldSpeakGate, liveInput]

/-! ## Route-progress tracker (`updateNavigationProgress`) -/

/-- A WGS-84 coordinate pair in degrees. -/
structure Coord where
  latitude : ℚ
  longitude : ℚ
deriving DecidableEq, Repr

/-- A navigation instruction as consumed by the tracker: its text and its
anchor coordinate (`instruction.coordinates`). -/
structure NavInstruction where
  text : String
  coordinates : Coord
deriving DecidableEq, Repr

/-- `distance < minDistance` where `minDistance` starts as
`Number.MAX_VALUE` (modelled as `none`: every distance is below it). -/
def ltMinDist (d : ℚ) : Option ℚ → Bool
  | none => true
  | some m => decide (d < m)

/-- The `forEach` body of `updateNavigationProgress`:
`if (distance < minDistance) { minDistance = distance; closestInstruction = instruction; }`.
The distance function parameter stands for the source's Haversine
`calculateDistance` (transcendental, treated as opaque). -/
def closestLoop (dist : Coord → Coord → ℚ) (pos : Coord) :
    List NavInstruction → NavInstruction → Option ℚ → NavInstruction
  | [], best, _ => best
  | i :: rest, best, minD =>
      if ltMinDist (dist pos i.coordinates) minD then
        closestLoop dist pos rest i (some (dist pos i.coordinates))
      else
        closestLoop dist pos rest best minD

/-- `updateNavigationProgress`: starts from
`closestInstruction = route.instructions[0]`, `minDistance = MAX_VALUE`, and
scans all instructions; with an empty instruction list the loop never runs
and no instruction is selected. -/
def updateNavigationProgress (dist : Coord → Coord → ℚ) (pos : Coord) :
    List NavInstruction → Option NavInstruction
  | [] => none
  | i0 :: rest => some (closestLoop dist pos (i0 :: rest) i0 none)

/-- The distance from the current position to an instruction's anchor
coordinate. -/
def instrDist (dist : Coord → Coord → ℚ) (pos : Coord) (i : NavInstruction) : ℚ :=
  dist pos i.coordinates

/-- The scan state after the first iteration: current best with its exact
distance as the running minimum. -/
def loopFrom (dist : Coord → Coord → ℚ) (pos : Coord)
    (rest : List NavInstruction) (best : NavInstruction) : NavInstruction :=
  closestLoop dist pos rest best (some (instrDist dist pos best))

/-- Scan invariant: starting from a current best whose distance is the
running minimum, the loop returns the first candidate (the current best
counting as earlier than every remaining index) achieving the minimum
distance; any strictly earlier remaining index has a strictly larger
distance. -/
theorem closestLoop_spec (dist : Coord → Coord → ℚ) (pos : Coord) :
    ∀ (rest : List NavInstruction) (best : NavInstruction),
      instrDist dist pos (loopFrom dist pos rest best) ≤ instrDist dist pos best ∧
      (∀ j (hj : j < rest.length),
          instrDist dist pos (loopFrom dist pos rest best) ≤
            instrDist dist pos (rest.get ⟨j, hj⟩)) ∧
      (loopFrom dist pos rest best = best ∨
        ∃ i, ∃ hi : i < rest.length,
          loopFrom dist pos rest best = rest.get ⟨i, hi⟩ ∧
          instrDist dist pos (loopFrom dist pos rest best) < instrDist dist pos best ∧
          ∀ j (hj : j < rest.length), j < i →
            instrDist dist pos (loopFrom dist pos rest best) <
              instrDist dist pos (rest.get ⟨j, hj⟩)) := by
  intro rest
  induction rest with
  | nil =>
      intro best
      exact ⟨le_refl _, fun j hj => absurd hj (Nat.not_lt_zero j), Or.inl rfl⟩
  | cons x xs ih =>
      intro best
      by_cases hx : instrDist dist pos x < instrDist dist pos best
      · have hx' : dist pos x.coordinates < dist pos best.coordinates := hx
        have hred : loopFrom dist pos (x :: xs) best = loopFrom dist pos xs x := by
          simp [loopFrom, closestLoop, ltMinDist, instrDist, hx']
        obtain ⟨ih1, ih2, ih3⟩ := ih x
        rw [hred]
        refine ⟨le_trans ih1 (le_of_lt hx), ?_, ?_⟩
        · intro j hj
          cases j with
          | zero => exact ih1
          | succ j => exact ih2 j (Nat.succ_lt_succ_iff.mp hj)
        · rcases ih3 with hbx | ⟨i', hi', hr, hlt, hfirst⟩
          · refine Or.inr ⟨0, Nat.succ_pos _, ?_, lt_of_le_of_lt ih1 hx, ?_⟩
            · exact hbx
            · intro j hj hj0
              exact absurd hj0 (Nat.not_lt_zero j)
          · refine Or.inr ⟨i' + 1, Nat.succ_lt_succ hi', hr, lt_trans hlt hx, ?_⟩
            intro j hj hji
            cases j with
            | zero => exact hlt
            | succ j => exact hfirst j (Nat.succ_lt_succ_iff.mp hj) (Nat.succ_lt_succ_iff.mp hji)
      · have hx' : ¬ dist pos x.coordinates < dist pos best.coordinates := hx
        have hred : loopFrom dist pos (x :: xs) best = loopFrom dist pos xs best := by
          simp [loopFrom, closestLoop, ltMinDist, instrDist, hx']
        obtain ⟨ih1, ih2, ih3⟩ := ih best
        rw [hred]
        refine ⟨ih1, ?_, ?_⟩
        · intro j hj
          cases j with
          | zero => exact le_trans ih1 (not_lt.mp hx)
          | succ j => exact ih2 j (Nat.succ_lt_succ_iff.mp hj)
        · rcases ih3 with hbb | ⟨i', hi', hr, hlt, hfirst⟩
          · exact Or.inl hbb
          · refine Or.inr ⟨i' + 1, Nat.succ_lt_succ hi', hr, hlt, ?_⟩
            intro j hj hji
            cases j with
            | zero => exact lt_of_lt_of_le hlt (not_lt.mp hx)
            | succ j => exact hfirst j (Nat.succ_lt_succ_iff.mp hj) (Nat.succ_lt_succ_iff.mp hji)

/-- C5: for every non-empty instruction list and every position, the
tracker selects the instruction whose anchor has minimum distance to the
position, and among equidistant instructions the one with the lowest index
(every strictly earlier index is at strictly larger distance). -/
theorem tracker_selects_first_closest (dist : Coord → Coord → ℚ) (pos : Coord)
    (i0 : NavInstruction) (rest : List NavInstruction) :
    ∃ i, ∃ hi : i < (i0 :: rest).length,
      updateNavigationProgress dist pos (i0 :: rest) = some ((i0 :: rest).get ⟨i, hi⟩) ∧
      (∀ j (hj : j < (i0 :: rest).length),
          instrDist dist pos ((i0 :: rest).get ⟨i, hi⟩) ≤
            instrDist dist pos ((i0 :: rest).get ⟨j, hj⟩)) ∧
      (∀ j (hj : j < (i0 :: rest).length), j < i →
          instrDist dist pos ((i0 :: rest).get ⟨i, hi⟩) <
            instrDist dist pos ((i0 :: rest).get ⟨j, hj⟩)) := by
  have hred : updateNavigationProgress dist pos (i0 :: rest) =
      some (loopFrom dist pos rest i0) := by
    simp [updateNavigationProgress, closestLoop, ltMinDist, loopFrom, instrDist]
  obtain ⟨h1, h2, h3⟩ := closestLoop_spec dist pos rest i0
  rcases h3 with hb | ⟨i', hi', hr, hlt, hfirst⟩
  · refine ⟨0, Nat.succ_pos _, by rw [hred, hb]; rfl, ?_, ?_⟩
    · intro j hj
      cases j with
      | zero => exact le_refl _
      | succ j =>
          have := h2 j (Nat.succ_lt_succ_iff.mp hj)
          rw [hb] at this
          exact this
    · intro j hj hj0
      exact absurd hj0 (Nat.not_lt_zero j)
  · refine ⟨i' + 1, Nat.succ_lt_succ hi', ?_, ?_, ?_⟩
    · rw [hred, hr]; rfl
    · intro j hj
      cases j with
      | zero =>
          have := hlt
          rw [hr] at this
          exact le_of_lt this
      | succ j =>
          have := h2 j (Nat.succ_lt_succ_iff.mp hj)
          rw [hr] at this
          exact this
    · intro j hj hji
      cases j with
      | zero =>
          have := hlt
          rw [hr] at this
          exact this
      | succ j =>
          have := hfirst j (Nat.succ_lt_succ_iff.mp hj) (Nat.succ_lt_succ_iff.mp hji)
          rw [hr] at this
          exact this

/-! ## Polyline decoder (`NavigationService.decodePolyline`)

The decoder uses JavaScript bitwise operators, which coerce to 32-bit
signed integers.  We model the values as `ℤ` with explicit 32-bit
normalisation. -/

/-- JavaScript ToInt32: wrap an integer to the signed 32-bit range. -/
def toInt32 (x : ℤ) : ℤ := (x + 2 ^ 31) % 2 ^ 32 - 2 ^ 31

/-- JavaScript `byte & 0x1f` on an int32: the low five bits of the
two's-complement representation, i.e. the residue mod 32. -/
def and31 (x : ℤ) : ℤ := x % 32

/-- The unsigned 32-bit (two's-complement) representation of an int32. -/
def bits32 (x : ℤ) : ℕ := (x % 2 ^ 32).toNat

/-- JavaScript `a | b`: bitwise or of the 32-bit representations, read back
as signed. -/
def or32 (a b : ℤ) : ℤ := toInt32 ((bits32 a ||| bits32 b : ℕ) : ℤ)

/-- JavaScript `x << s`: the shift count is masked to five bits and the
result wraps to signed 32 bits. -/
def shl32 (x : ℤ) (s : ℕ) : ℤ := toInt32 (x * 2 ^ (s % 32))

/-- JavaScript `x >> 1` on an int32: arithmetic shift, i.e. floor division
by two. -/
def shr1 (x : ℤ) : ℤ := x / 2

/-- JavaScript `~x` on an int32. -/
def notInt32 (x : ℤ) : ℤ := -(x + 1)

/-- The inner group loop of `decodePolyline`:
`do { byte = encoded.charCodeAt(index++) - 63; result |= (byte & 0x1f) << shift; shift += 5; } while (byte >= 0x20);`.
`chars` holds the character codes from the current index.  `charCodeAt`
past the end of the string yields `NaN`, for which `NaN & 0x1f` is 0 (so
`result` is unchanged) and `NaN >= 0x20` is false (so the loop exits);
`index` is still incremented.  Returns the accumulated `result` and the
number of `index` increments. -/
def readGroup : List ℕ → ℕ → ℤ → ℤ × ℕ
  | [], _, result => (result, 1)
  | c :: rest, shift, result =>
      let byte : ℤ := (c : ℤ) - 63
      let result' := or32 result (shl32 (and31 byte) shift)
      if 32 ≤ byte then
        ((readGroup rest (shift + 5) result').1, (readGroup rest (shift + 5) result').2 + 1)
      else (result', 1)

/-- The zig-zag sign decoding of `decodePolyline`:
`((result & 1) !== 0 ? ~(result >> 1) : (result >> 1))`. -/
def unzig (result : ℤ) : ℤ :=
  if result % 2 ≠ 0 then notInt32 (shr1 result) else shr1 result

/-- The outer `while (index < encoded.length)` loop of `decodePolyline`:
read a latitude group, add the delta, read a longitude group, add the
delta, and push `{latitude: lat / 1e5, longitude: lng / 1e5}`.  `fuel`
bounds the number of iterations; each iteration consumes at least one
character, so `encoded.length` iterations always suffice and the fuelled
function agrees with the source loop. -/
def decodeLoop : ℕ → List ℕ → ℤ → ℤ → List Coord
  | 0, _, _, _ => []
  | fuel + 1, chars, lat, lng =>
      if chars.isEmpty then []
      else
        ⟨((lat + unzig (readGroup chars 0 0).1 : ℤ) : ℚ) / 100000,
         ((lng + unzig (readGroup ((chars.drop (readGroup chars 0 0).2)) 0 0).1 : ℤ) : ℚ) / 100000⟩ ::
          decodeLoop fuel
            ((chars.drop (readGroup chars 0 0).2).drop
              (readGroup (chars.drop (readGroup chars 0 0).2) 0 0).2)
            (lat + unzig (readGroup chars 0 0).1)
            (lng + unzig (readGroup ((chars.drop (readGroup chars 0 0).2)) 0 0).1)

/-- `decodePolyline(encoded)` on the string's character codes. -/
def decodePolyline (encoded : List ℕ) : List Coord :=
  decodeLoop (encoded.length + 1) encoded 0 0

/-- Modelled from the spec: the conforming polyline encoder is not part of
the repository; §4.2 describes "the classic signed-varint delta encoding —
5-bit groups, continuation bit 0x20, zig-zag sign decoding, scale factor
1e-5".  Chunk emission for one non-negative zig-zag value: emit
`(0x20 | (z & 0x1f)) + 63` while `z >= 0x20`, then the final `z + 63`. -/
def encodeChunks (z : ℕ) : List ℕ :=
  if z < 32 then [z + 63]
  else (95 + z % 32) :: encodeChunks (z / 32)
decreasing_by exact Nat.div_lt_self (by omega) (by omega)

/-- Modelled from the spec: zig-zag sign encoding of a signed value —
non-negative `v` becomes `2v`, negative `v` becomes `-2v - 1`. -/
def zigzag (v : ℤ) : ℕ := if v < 0 then (-2 * v - 1).toNat else (2 * v).toNat

/-- Modelled from the spec: `Math.round(x * 1e5)` quantisation of a degree
value to the 1e-5 grid (round half up). -/
def quantize (x : ℚ) : ℤ := ⌊x * 100000 + 1/2⌋

/-- Modelled from the spec: a conforming encoder emits, per coordinate, the
zig-zag chunks of the deltas of the quantised latitude and longitude from
the previous coordinate. -/
def encodeTail (plat plng : ℤ) : List Coord → List ℕ
  | [] => []
  | c :: rest =>
      encodeChunks (zigzag (quantize c.latitude - plat)) ++
        (encodeChunks (zigzag (quantize c.longitude - plng)) ++
          encodeTail (quantize c.latitude) (quantize c.longitude) rest)

/-- Modelled from the spec: encode a coordinate sequence starting from the
origin. -/
def encodePolyline (coords : List Coord) : List ℕ := encodeTail 0 0 coords

/-- Disjoint-bits or: below `2 ^ n` the or with a multiple of `2 ^ n` is
addition. -/
theorem nat_lor_pow2 (n a b : ℕ) (h : a < 2 ^ n) : a ||| 2 ^ n * b = a + 2 ^ n * b := by
  apply Nat.eq_of_testBit_eq
  intro j
  have hmul : 2 ^ n * b = b <<< n := by rw [Nat.shiftLeft_eq, Nat.mul_comm]
  rw [Nat.add_comm, Nat.testBit_mul_pow_two_add b h j, Nat.testBit_lor, hmul,
    Nat.testBit_shiftLeft]
  by_cases hj : j < n
  · simp [hj, Nat.not_le.mpr hj]
  · have hge : n ≤ j := Nat.not_lt.mp hj
    have ha : a.testBit j = false :=
      Nat.testBit_lt_two_pow (lt_of_lt_of_le h (Nat.pow_le_pow_right (by norm_num) hge))
    simp [hj, hge, ha]

/-- `toInt32` is the identity on the signed 32-bit range (non-negative
half). -/
theorem toInt32_of_lt (x : ℤ) (h0 : 0 ≤ x) (h1 : x < 2 ^ 31) : toInt32 x = x := by
  unfold toInt32
  rw [Int.emod_eq_of_lt (by omega) (by omega)]
  omega

/-- `bits32` is the identity on the same range. -/
theorem bits32_cast (x : ℤ) (h0 : 0 ≤ x) (h1 : x < 2 ^ 31) : (bits32 x : ℤ) = x := by
  unfold bits32
  rw [Int.emod_eq_of_lt h0 (by omega), Int.toNat_of_nonneg h0]

/-- One `result |= (byte & 0x1f) << shift` step in the clean regime: with
`result` holding only bits below `shift` and the total staying below
`2 ^ 31`, the or is exact addition. -/
theorem or32_step (r k : ℤ) (shift : ℕ) (hr0 : 0 ≤ r) (hrlt : r < 2 ^ shift)
    (hk0 : 0 ≤ k) (hbound : k * 2 ^ shift + r < 2 ^ 31) :
    or32 r (shl32 k shift) = r + k * 2 ^ shift := by
  have hp : (0:ℤ) < 2 ^ shift := by positivity
  have hr31 : r < 2 ^ 31 := by nlinarith
  rcases eq_or_lt_of_le hk0 with hk | hk
  · have hsh : shl32 k shift = 0 := by
      rw [← hk]
      unfold shl32
      rw [zero_mul]
      exact toInt32_of_lt 0 le_rfl (by norm_num)
    rw [hsh]
    unfold or32
    have hb0 : bits32 0 = 0 := by
      have := bits32_cast 0 le_rfl (by norm_num)
      omega
    rw [hb0, Nat.or_zero]
    rw [bits32_cast r hr0 hr31]
    rw [toInt32_of_lt r hr0 hr31]
    rw [← hk]
    ring
  · -- 0 < k, so 2 ^ shift < 2 ^ 31 and the shift count is unmasked
    have hks : 2 ^ shift ≤ k * 2 ^ shift := le_mul_of_one_le_left (le_of_lt hp) hk
    have hslt : (2:ℤ) ^ shift < 2 ^ 31 := by nlinarith
    have hshift : shift < 31 := by
      by_contra hc
      have : (2:ℤ) ^ 31 ≤ 2 ^ shift := pow_le_pow_right₀ (by norm_num) (by omega)
      omega
    have hmod : shift % 32 = shift := Nat.mod_eq_of_lt (by omega)
    have hkp : k * 2 ^ shift < 2 ^ 31 := by nlinarith
    have hsh : shl32 k shift = k * 2 ^ shift := by
      unfold shl32
      rw [hmod]
      exact toInt32_of_lt _ (by positivity) hkp
    rw [hsh]
    unfold or32
    have hbr : (bits32 r : ℤ) = r := bits32_cast r hr0 hr31
    have hbk : (bits32 (k * 2 ^ shift) : ℤ) = k * 2 ^ shift :=
      bits32_cast _ (by positivity) hkp
    have hbrlt : bits32 r < 2 ^ shift := by
      have : ((bits32 r : ℤ)) < (2:ℤ) ^ shift := by rw [hbr]; exact hrlt
      exact_mod_cast this
    have hkeq : bits32 (k * 2 ^ shift) = 2 ^ shift * k.toNat := by
      have : ((2 ^ shift * k.toNat : ℕ) : ℤ) = k * 2 ^ shift := by
        push_cast [Int.toNat_of_nonneg hk0]
        ring
      omega
    rw [hkeq, nat_lor_pow2 shift (bits32 r) k.toNat hbrlt]
    have hcast : (((bits32 r + 2 ^ shift * k.toNat : ℕ)) : ℤ) = r + k * 2 ^ shift := by
      push_cast [Int.toNat_of_nonneg hk0]
      rw [hbr]
      ring
    rw [hcast]
    exact toInt32_of_lt _ (by omega) (by omega)

/-- Unfolding of `encodeChunks` for a terminal value. -/
theorem encodeChunks_small (z : ℕ) (h : z < 32) : encodeChunks z = [z + 63] := by
  rw [encodeChunks]
  simp [h]

/-- Unfolding of `encodeChunks` for a continued value. -/
theorem encodeChunks_large (z : ℕ) (h : ¬ z < 32) :
    encodeChunks z = (95 + z % 32) :: encodeChunks (z / 32) := by
  rw [encodeChunks]
  simp [h]

/-- Reading the chunks of `z` adds `z` shifted into place above the
already-accumulated bits and consumes exactly the chunk list. -/
theorem readGroup_encodeChunks (z : ℕ) :
    ∀ (rest : List ℕ) (shift : ℕ) (r : ℤ), 0 ≤ r → r < 2 ^ shift →
      (z : ℤ) * 2 ^ shift + r < 2 ^ 31 →
      readGroup (encodeChunks z ++ rest) shift r =
        (r + (z : ℤ) * 2 ^ shift, (encodeChunks z).length) := by
  induction z using Nat.strong_induction_on with
  | _ z ih =>
    intro rest shift r hr0 hrlt hbound
    by_cases hz : z < 32
    · rw [encodeChunks_small z hz, List.singleton_append]
      simp only [readGroup]
      have hbyte : ((z + 63 : ℕ) : ℤ) - 63 = (z : ℤ) := by push_cast; ring
      rw [hbyte]
      have hcond : ¬ (32 : ℤ) ≤ (z : ℤ) := by exact_mod_cast (by omega : ¬ (32 ≤ z))
      rw [if_neg hcond]
      have hand : and31 (z : ℤ) = (z : ℤ) := by
        unfold and31
        rw [Int.emod_eq_of_lt (by positivity) (by exact_mod_cast hz)]
      rw [hand, or32_step r (z : ℤ) shift hr0 hrlt (by positivity) hbound]
      simp
    · rw [encodeChunks_large z hz, List.cons_append]
      simp only [readGroup]
      have hbyte : ((95 + z % 32 : ℕ) : ℤ) - 63 = 32 + ((z % 32 : ℕ) : ℤ) := by
        push_cast; ring
      rw [hbyte]
      have hcond : (32 : ℤ) ≤ 32 + ((z % 32 : ℕ) : ℤ) := by omega
      rw [if_pos hcond]
      have hmlt : z % 32 < 32 := Nat.mod_lt z (by omega)
      have hand : and31 (32 + ((z % 32 : ℕ) : ℤ)) = ((z % 32 : ℕ) : ℤ) := by
        unfold and31
        omega
      rw [hand]
      have hp : (0:ℤ) < 2 ^ shift := by positivity
      have hmle : ((z % 32 : ℕ) : ℤ) * 2 ^ shift ≤ (z : ℤ) * 2 ^ shift := by
        have : ((z % 32 : ℕ) : ℤ) ≤ (z : ℤ) := by exact_mod_cast Nat.mod_le z 32
        exact mul_le_mul_of_nonneg_right this (le_of_lt hp)
      rw [or32_step r _ shift hr0 hrlt (by positivity) (by omega)]
      have hdm : ((z % 32 : ℕ) : ℤ) + 32 * ((z / 32 : ℕ) : ℤ) = (z : ℤ) := by
        push_cast
        omega
      have hpow : (2:ℤ) ^ (shift + 5) = 2 ^ shift * 32 := by
        rw [pow_add]
        norm_num
      have hres0 : (0:ℤ) ≤ r + ((z % 32 : ℕ) : ℤ) * 2 ^ shift := by positivity
      have hreslt : r + ((z % 32 : ℕ) : ℤ) * 2 ^ shift < 2 ^ (shift + 5) := by
        rw [hpow]
        have h31 : ((z % 32 : ℕ) : ℤ) ≤ 31 := by exact_mod_cast (by omega : z % 32 ≤ 31)
        nlinarith
      have hbound' : ((z / 32 : ℕ) : ℤ) * 2 ^ (shift + 5) +
          (r + ((z % 32 : ℕ) : ℤ) * 2 ^ shift) < 2 ^ 31 := by
        have heq : ((z / 32 : ℕ) : ℤ) * 2 ^ (shift + 5) +
            (r + ((z % 32 : ℕ) : ℤ) * 2 ^ shift) = (z : ℤ) * 2 ^ shift + r := by
          rw [hpow]
          linear_combination (2:ℤ) ^ shift * hdm
        rw [heq]
        exact hbound
      rw [ih (z / 32) (Nat.div_lt_self (by omega) (by omega)) rest (shift + 5) _ hres0
        hreslt hbound']
      simp only [List.length_cons]
      refine Prod.ext ?_ ?_
      · show r + ((z % 32 : ℕ) : ℤ) * 2 ^ shift + ((z / 32 : ℕ) : ℤ) * 2 ^ (shift + 5) =
          r + (z : ℤ) * 2 ^ shift
        rw [hpow]
        linear_combination (2:ℤ) ^ shift * hdm
      · rfl

/-- Cast form of the zig-zag encoding. -/
theorem zigzag_cast (v : ℤ) :
    ((zigzag v : ℕ) : ℤ) = if v < 0 then -2 * v - 1 else 2 * v := by
  unfold zigzag
  split
  · rw [Int.toNat_of_nonneg (by omega)]
  · rename_i hv
    rw [Int.toNat_of_nonneg (by omega)]

/-- The decoder's sign decoding inverts the zig-zag encoding. -/
theorem unzig_zigzag (v : ℤ) : unzig ((zigzag v : ℕ) : ℤ) = v := by
  unfold unzig shr1 notInt32
  rw [zigzag_cast v]
  split_ifs <;> omega

/-- Zig-zag values of moderately sized inputs stay below `2 ^ 31`. -/
theorem zigzag_lt_two_pow (v : ℤ) (h : |v| ≤ 500000000) :
    ((zigzag v : ℕ) : ℤ) < 2 ^ 31 := by
  have hz := zigzag_cast v
  rw [abs_le] at h
  by_cases hv : v < 0
  · rw [if_pos hv] at hz
    omega
  · rw [if_neg hv] at hz
    omega

/-- `encodeChunks` always emits at least one character. -/
theorem encodeChunks_ne_nil (z : ℕ) : encodeChunks z ≠ [] := by
  by_cases h : z < 32
  · rw [encodeChunks_small z h]
    simp
  · rw [encodeChunks_large z h]
    simp

/-- One iteration of the decode loop on a conforming coordinate-pair
encoding: it recovers both deltas, consumes exactly the pair's characters
and continues on the remainder. -/
theorem decodeLoop_cons (fuel : ℕ) (dlat dlng : ℤ) (rest : List ℕ) (lat lng : ℤ)
    (h1 : ((zigzag dlat : ℕ) : ℤ) < 2 ^ 31) (h2 : ((zigzag dlng : ℕ) : ℤ) < 2 ^ 31) :
    decodeLoop (fuel + 1)
        (encodeChunks (zigzag dlat) ++ (encodeChunks (zigzag dlng) ++ rest)) lat lng =
      ⟨((lat + dlat : ℤ) : ℚ) / 100000, ((lng + dlng : ℤ) : ℚ) / 100000⟩ ::
        decodeLoop fuel rest (lat + dlat) (lng + dlng) := by
  have hg1 := readGroup_encodeChunks (zigzag dlat) (encodeChunks (zigzag dlng) ++ rest) 0 0
    le_rfl (by norm_num) (by simpa using h1)
  have hg2 := readGroup_encodeChunks (zigzag dlng) rest 0 0 le_rfl (by norm_num)
    (by simpa using h2)
  have hF : (encodeChunks (zigzag dlat) ++
      (encodeChunks (zigzag dlng) ++ rest)).isEmpty = false := by
    simp [encodeChunks_ne_nil]
  simp only [decodeLoop, hF, Bool.false_eq_true, if_false, hg1, hg2, List.drop_left,
    unzig_zigzag]
  simp [unzig_zigzag, hg2, List.drop_left]

/-- The pair encoding is at least as long as the coordinate list. -/
theorem encodeTail_length_ge (coords : List Coord) :
    ∀ plat plng, coords.length ≤ (encodeTail plat plng coords).length := by
  induction coords with
  | nil =>
      intro _ _
      simp [encodeTail]
  | cons c cs ih =>
      intro plat plng
      have h1 : 0 < (encodeChunks (zigzag (quantize c.latitude - plat))).length :=
        List.length_pos.mpr (encodeChunks_ne_nil _)
      have h2 := ih (quantize c.latitude) (quantize c.longitude)
      simp only [encodeTail, List.length_append, List.length_cons]
      omega

/-- The floor of an integer plus one half is that integer. -/
theorem floor_int_add_half (n : ℤ) : ⌊(n : ℚ) + 1/2⌋ = n := by
  rw [add_comm, Int.floor_add_int]
  have h : ⌊(1/2 : ℚ)⌋ = 0 := by
    rw [Int.floor_eq_zero_iff]
    rw [Set.mem_Ico]
    norm_num
  rw [h]
  ring

/-- Monotone upper bound on the quantisation. -/
theorem quantize_le (x : ℚ) (B : ℤ) (h : x ≤ (B : ℚ)) : quantize x ≤ B * 100000 := by
  unfold quantize
  have hle : x * 100000 + 1/2 ≤ ((B * 100000 : ℤ) : ℚ) + 1/2 := by
    push_cast
    nlinarith
  calc ⌊x * 100000 + 1/2⌋ ≤ ⌊((B * 100000 : ℤ) : ℚ) + 1/2⌋ := Int.floor_le_floor hle
    _ = B * 100000 := floor_int_add_half _

/-- Monotone lower bound on the quantisation. -/
theorem le_quantize (x : ℚ) (B : ℤ) (h : (B : ℚ) ≤ x) : B * 100000 ≤ quantize x := by
  unfold quantize
  have hle : ((B * 100000 : ℤ) : ℚ) + 1/2 ≤ x * 100000 + 1/2 := by
    push_cast
    nlinarith
  calc B * 100000 = ⌊((B * 100000 : ℤ) : ℚ) + 1/2⌋ := (floor_int_add_half _).symm
    _ ≤ ⌊x * 100000 + 1/2⌋ := Int.floor_le_floor hle

/-- Quantisation error: the decoded grid value is within `1e-5` degrees of
the original (in fact within half that). -/
theorem quantize_error (x : ℚ) : |((quantize x : ℤ) : ℚ) / 100000 - x| ≤ 1/100000 := by
  have h1 : ((quantize x : ℤ) : ℚ) ≤ x * 100000 + 1/2 := Int.floor_le _
  have h2 : x * 100000 + 1/2 - 1 < ((quantize x : ℤ) : ℚ) := Int.sub_one_lt_floor _
  rw [abs_le]
  constructor
  · linarith
  · linarith

/-- Decoding a conforming encoding recovers the quantised coordinates
exactly, given enough fuel and geographically valid inputs. -/
theorem decode_encodeTail (coords : List Coord) :
    ∀ (fuel : ℕ) (plat plng : ℤ), coords.length ≤ fuel →
      (∀ c ∈ coords, |c.latitude| ≤ 90 ∧ |c.longitude| ≤ 180) →
      |plat| ≤ 18000000 → |plng| ≤ 18000000 →
      decodeLoop fuel (encodeTail plat plng coords) plat plng =
        coords.map (fun c =>
          ⟨((quantize c.latitude : ℤ) : ℚ) / 100000,
           ((quantize c.longitude : ℤ) : ℚ) / 100000⟩) := by
  induction coords with
  | nil =>
      intro fuel plat plng _ _ _ _
      cases fuel with
      | zero => rfl
      | succ f => rfl
  | cons c cs ih =>
      intro fuel plat plng hfuel hvalid hplat hplng
      cases fuel with
      | zero => simp at hfuel
      | succ f =>
          have hc := hvalid c (by simp)
          have hcs : ∀ c' ∈ cs, |c'.latitude| ≤ 90 ∧ |c'.longitude| ≤ 180 :=
            fun c' hc' => hvalid c' (by simp [hc'])
          have hqlat1 : quantize c.latitude ≤ 9000000 := by
            have := quantize_le c.latitude 90 (by have := hc.1; rw [abs_le] at this; exact_mod_cast this.2)
            omega
          have hqlat2 : -9000000 ≤ quantize c.latitude := by
            have := le_quantize c.latitude (-90) (by have := hc.1; rw [abs_le] at this; exact_mod_cast this.1)
            omega
          have hqlng1 : quantize c.longitude ≤ 18000000 := by
            have := quantize_le c.longitude 180 (by have := hc.2; rw [abs_le] at this; exact_mod_cast this.2)
            omega
          have hqlng2 : -18000000 ≤ quantize c.longitude := by
            have := le_quantize c.longitude (-180) (by have := hc.2; rw [abs_le] at this; exact_mod_cast this.1)
            omega
          rw [abs_le] at hplat hplng
          have hdlat : ((zigzag (quantize c.latitude - plat) : ℕ) : ℤ) < 2 ^ 31 :=
            zigzag_lt_two_pow _ (by rw [abs_le]; omega)
          have hdlng : ((zigzag (quantize c.longitude - plng) : ℕ) : ℤ) < 2 ^ 31 :=
            zigzag_lt_two_pow _ (by rw [abs_le]; omega)
          rw [encodeTail, decodeLoop_cons f _ _ _ plat plng hdlat hdlng]
          rw [show plat + (quantize c.latitude - plat) = quantize c.latitude from by ring]
          rw [show plng + (quantize c.longitude - plng) = quantize c.longitude from by ring]
          rw [List.map_cons]
          congr 1
          refine ih f (quantize c.latitude) (quantize c.longitude) (by simpa using hfuel)
            hcs ?_ ?_
          · rw [abs_le]
            omega
          · rw [abs_le]
            omega

/-- Decode-of-encode in closed form: the quantised coordinate list. -/
theorem decode_encode (coords : List Coord)
    (hvalid : ∀ c ∈ coords, |c.latitude| ≤ 90 ∧ |c.longitude| ≤ 180) :
    decodePolyline (encodePolyline coords) =
      coords.map (fun c =>
        ⟨((quantize c.latitude : ℤ) : ℚ) / 100000,
         ((quantize c.longitude : ℤ) : ℚ) / 100000⟩) := by
  unfold decodePolyline encodePolyline
  refine decode_encodeTail coords _ 0 0 ?_ hvalid (by norm_num) (by norm_num)
  have := encodeTail_length_ge coords 0 0
  omega

/-- C7: for every geographically valid coordinate sequence (of any length,
including 0 and 1), decoding the conforming 1e-5-scale encoding yields a
sequence of the same length whose coordinates each match the originals to
within 1e-5 degrees. -/
theorem polyline_round_trip (coords : List Coord)
    (hvalid : ∀ c ∈ coords, |c.latitude| ≤ 90 ∧ |c.longitude| ≤ 180) :
    (decodePolyline (encodePolyline coords)).length = coords.length ∧
    ∀ j (hj : j < (decodePolyline (encodePolyline coords)).length)
        (hj' : j < coords.length),
      |((decodePolyline (encodePolyline coords)).get ⟨j, hj⟩).latitude -
          (coords.get ⟨j, hj'⟩).latitude| ≤ 1/100000 ∧
      |((decodePolyline (encodePolyline coords)).get ⟨j, hj⟩).longitude -
          (coords.get ⟨j, hj'⟩).longitude| ≤ 1/100000 := by
  have hdec := decode_encode coords hvalid
  constructor
  · rw [hdec]
    simp
  · intro j hj hj'
    have hget : (decodePolyline (encodePolyline coords)).get ⟨j, hj⟩ =
        ⟨((quantize (coords.get ⟨j, hj'⟩).latitude : ℤ) : ℚ) / 100000,
         ((quantize (coords.get ⟨j, hj'⟩).longitude : ℤ) : ℚ) / 100000⟩ := by
      rw [List.get_of_eq hdec ⟨j, hj⟩, List.get_map]
    rw [hget]
    exact ⟨quantize_error _, quantize_error _⟩

/-- Witness for `polyline_round_trip` at the one-coordinate sequence
(38.5, -120.2). -/
theorem polyline_round_trip_witness :
    (decodePolyline (encodePolyline [⟨77/2, -601/5⟩])).length = 1 := by
  have h := (polyline_round_trip [⟨77/2, -601/5⟩] (by
    intro c hc
    rw [List.mem_singleton] at hc
    subst hc
    constructor
    · rw [abs_le]
      constructor <;> norm_num
    · rw [abs_le]
      constructor <;> norm_num)).1
  simpa using h

/-- The decode loop on an exhausted string. -/
theorem decodeLoop_nil (fuel : ℕ) (lat lng : ℤ) : decodeLoop fuel [] lat lng = [] := by
  cases fuel <;> rfl

/-- Decoding a lone dangling continuation byte (`'_'` = 95, whose group is
never terminated): both phantom reads yield 0, so a (0-delta, 0-delta)
coordinate is pushed. -/
theorem decode_lone_continuation : decodePolyline [95] = [⟨0, 0⟩] := by
  have hr : readGroup [95] 0 0 = (0, 2) := by decide
  have hr2 : readGroup ([] : List ℕ) 0 0 = (0, 1) := rfl
  have hu : unzig 0 = 0 := by decide
  show decodeLoop 2 [95] 0 0 = [⟨0, 0⟩]
  norm_num [decodeLoop, hr, hr2, hu, decodeLoop_nil]

/-- The decode loop on a dangling continuation byte after a valid prefix:
the truncated group reads as zero deltas, duplicating the accumulated
coordinate. -/
theorem decodeLoop_dangling (fuel : ℕ) (lat lng : ℤ) :
    decodeLoop (fuel + 1) [95] lat lng =
      [⟨((lat : ℤ) : ℚ) / 100000, ((lng : ℤ) : ℚ) / 100000⟩] := by
  have hr : readGroup [95] 0 0 = (0, 2) := by decide
  have hr2 : readGroup ([] : List ℕ) 0 0 = (0, 1) := rfl
  have hu : unzig 0 = 0 := by decide
  norm_num [decodeLoop, hr, hr2, hu, decodeLoop_nil]

/-- Quantisation of the example latitude 38.5. -/
theorem quantize_lat_example : quantize (77/2) = 3850000 := by
  have h : (77/2 : ℚ) * 100000 + 1/2 = ((3850000 : ℤ) : ℚ) + 1/2 := by norm_num
  rw [quantize, h, floor_int_add_half]

/-- Quantisation of the example longitude -120.2. -/
theorem quantize_lng_example : quantize (-601/5) = -12020000 := by
  have h : (-601/5 : ℚ) * 100000 + 1/2 = ((-12020000 : ℤ) : ℚ) + 1/2 := by norm_num
  rw [quantize, h, floor_int_add_half]

/-- Chunk evaluation for the example latitude delta. -/
theorem encodeChunks_lat_example : encodeChunks 7700000 = [95, 112, 126, 105, 70] := by
  rw [encodeChunks_large 7700000 (by norm_num)]
  rw [encodeChunks_large (7700000 / 32) (by norm_num)]
  rw [encodeChunks_large (7700000 / 32 / 32) (by norm_num)]
  rw [encodeChunks_large (7700000 / 32 / 32 / 32) (by norm_num)]
  rw [encodeChunks_small (7700000 / 32 / 32 / 32 / 32) (by norm_num)]

/-- Chunk evaluation for the example longitude delta. -/
theorem encodeChunks_lng_example : encodeChunks 24039999 = [126, 112, 115, 124, 85] := by
  rw [encodeChunks_large 24039999 (by norm_num)]
  rw [encodeChunks_large (24039999 / 32) (by norm_num)]
  rw [encodeChunks_large (24039999 / 32 / 32) (by norm_num)]
  rw [encodeChunks_large (24039999 / 32 / 32 / 32) (by norm_num)]
  rw [encodeChunks_small (24039999 / 32 / 32 / 32 / 32) (by norm_num)]

/-- The conforming encoding of (38.5, -120.2) is the classic example string
`"_p~iF~ps|U"`. -/
theorem encode_example :
    encodePolyline [⟨77/2, -601/5⟩] = [95, 112, 126, 105, 70, 126, 112, 115, 124, 85] := by
  show encodeTail 0 0 [⟨77/2, -601/5⟩] = _
  rw [encodeTail, encodeTail]
  rw [show (⟨77/2, -601/5⟩ : Coord).latitude = 77/2 from rfl,
    show (⟨77/2, -601/5⟩ : Coord).longitude = -601/5 from rfl,
    quantize_lat_example, quantize_lng_example, sub_zero, sub_zero]
  rw [show zigzag 3850000 = 7700000 from by decide,
    show zigzag (-12020000) = 24039999 from by decide,
    encodeChunks_lat_example, encodeChunks_lng_example]
  norm_num

/-- Decoding the example string recovers (38.5, -120.2). -/
theorem decode_example :
    decodePolyline [95, 112, 126, 105, 70, 126, 112, 115, 124, 85] = [⟨77/2, -601/5⟩] := by
  rw [← encode_example, decode_encode]
  · rw [List.map_cons, List.map_nil]
    rw [show (⟨77/2, -601/5⟩ : Coord).latitude = 77/2 from rfl,
      show (⟨77/2, -601/5⟩ : Coord).longitude = -601/5 from rfl,
      quantize_lat_example, quantize_lng_example]
    norm_num
  · intro c hc
    rw [List.mem_singleton] at hc
    subst hc
    constructor
    · rw [show (⟨77/2, -601/5⟩ : Coord).latitude = 77/2 from rfl, abs_le]
      constructor <;> norm_num
    · rw [show (⟨77/2, -601/5⟩ : Coord).longitude = -601/5 from rfl, abs_le]
      constructor <;> norm_num

/-- Decoding the example string with a dangling continuation byte appended:
the decoder returns the valid coordinate and then a duplicate of it, rather
than failing. -/
theorem decode_truncated_example :
    decodePolyline [95, 112, 126, 105, 70, 126, 112, 115, 124, 85, 95] =
      [⟨77/2, -601/5⟩, ⟨77/2, -601/5⟩] := by
  have hsplit : ([95, 112, 126, 105, 70, 126, 112, 115, 124, 85, 95] : List ℕ) =
      encodeChunks (zigzag (3850000 : ℤ)) ++ (encodeChunks (zigzag (-12020000 : ℤ)) ++ [95]) := by
    rw [show zigzag (3850000 : ℤ) = 7700000 from by decide,
      show zigzag (-12020000 : ℤ) = 24039999 from by decide,
      encodeChunks_lat_example, encodeChunks_lng_example]
    norm_num
  show decodeLoop ([95, 112, 126, 105, 70, 126, 112, 115, 124, 85, 95].length + 1)
    [95, 112, 126, 105, 70, 126, 112, 115, 124, 85, 95] 0 0 = _
  rw [hsplit]
  have hlen : (encodeChunks (zigzag (3850000 : ℤ)) ++
      (encodeChunks (zigzag (-12020000 : ℤ)) ++ [95])).length = 11 := by
    rw [← hsplit]
    rfl
  rw [hlen]
  rw [decodeLoop_cons 11 3850000 (-12020000) [95] 0 0 (by decide) (by decide)]
  rw [show (11 : ℕ) = 10 + 1 from rfl, decodeLoop_dangling]
  norm_num

/-- C6 counterexample: the input `[95]` (a single `'_'`, a continuation
byte whose 5-bit group is never terminated) terminates mid-codepoint, yet
`decodePolyline` neither returns an empty sequence nor throws (the source
contains no throw): it returns the garbage coordinate (0, 0). -/
theorem truncated_polyline_not_rejected_cex :
    decodePolyline [95] = [⟨0, 0⟩] ∧ decodePolyline [95] ≠ [] := by
  refine ⟨decode_lone_continuation, ?_⟩
  rw [decode_lone_continuation]
  simp

/-- C6 amended: `decodePolyline` processes the entire string, but an input
that terminates mid-codepoint is not rejected: out-of-range `charCodeAt`
reads behave as a terminating zero group, so the decoder returns partially
decoded coordinates — the classic example string decodes fully, and the
same string with a dangling continuation byte appended decodes to the valid
coordinate followed by a garbage duplicate of it. -/
theorem truncated_polyline_partial_decode :
    decodePolyline [95, 112, 126, 105, 70, 126, 112, 115, 124, 85] = [⟨77/2, -601/5⟩] ∧
    decodePolyline [95, 112, 126, 105, 70, 126, 112, 115, 124, 85, 95] =
      [⟨77/2, -601/5⟩, ⟨77/2, -601/5⟩] :=
  ⟨decode_example, decode_truncated_example⟩
